import Mathlib

/-!
Verification of the video-grid repository's key-derivation and tag-parsing
core against its natural-language specification.

The development shallowly embeds the two source files that the claims cite:

* src/src/hdWallet.ts — deterministic namespace-to-public-key derivation
  (`deriveHDSeed`, `generateHDKeypair`, `generateMnemonic`,
  `deriveNamespacePublicKey`);
* src/src/App.tsx — the graph wire decoder (`parseGraphNodes`) and the
  explicit-coordinate tag-point parser (`parseTagPointsForNamespace`).

Bytes are modelled as `Nat` (with explicit `% 256` where the source relies on
JavaScript `Uint8Array` single-byte coercion), byte strings as `List Nat`, and
the cryptographic library functions imported by hdWallet.ts (noble SHA-512 /
HMAC-SHA-512, bip39, tweetnacl) as a record of function parameters
(`CryptoPrims`), since they are external dependencies, not code of this
repository.  Every repository-defined function is translated executably.
-/

/-! ### Byte-level utilities (faithful models of the JS runtime helpers) -/

/-- Standard UTF-8 encoding of one code point, as the `TextEncoder` used by
hdWallet.ts produces (Lean `Char` is a Unicode scalar value, so the lone
surrogate replacement path of `TextEncoder` cannot arise). -/
def utf8EncodeCharNat (c : Char) : List Nat :=
  let n := c.toNat
  if n < 0x80 then [n]
  else if n < 0x800 then
    [0xC0 ||| (n >>> 6), 0x80 ||| (n &&& 0x3F)]
  else if n < 0x10000 then
    [0xE0 ||| (n >>> 12), 0x80 ||| ((n >>> 6) &&& 0x3F), 0x80 ||| (n &&& 0x3F)]
  else
    [0xF0 ||| (n >>> 18), 0x80 ||| ((n >>> 12) &&& 0x3F),
     0x80 ||| ((n >>> 6) &&& 0x3F), 0x80 ||| (n &&& 0x3F)]

/-- UTF-8 bytes of a string (model of `new TextEncoder().encode` /
`utf8ToBytes`). -/
def utf8Bytes (s : String) : List Nat :=
  s.data.flatMap utf8EncodeCharNat

/-- Lower-case hex digit for a value in [0,15]. -/
def hexDigit (n : Nat) : Char :=
  if n < 10 then Char.ofNat (48 + n) else Char.ofNat (87 + n)

/-- Lower-case hex rendering of a byte list (model of noble `bytesToHex`;
inputs are bytes, i.e. below 256). -/
def bytesToHex (bs : List Nat) : String :=
  String.mk (bs.flatMap (fun b => [hexDigit (b / 16 % 16), hexDigit (b % 16)]))

/-- Character of the standard base64 alphabet at index `n` (0-63). -/
def base64Char (n : Nat) : Char :=
  if n < 26 then Char.ofNat (65 + n)
  else if n < 52 then Char.ofNat (97 + (n - 26))
  else if n < 62 then Char.ofNat (48 + (n - 52))
  else if n = 62 then '+' else '/'

/-- Base64 encoding of a byte list, grouped three bytes at a time with `=`
padding — the behaviour of the source's `bytesToBase64`, which builds a
binary string with `String.fromCharCode` and applies `btoa`. -/
def base64Groups : List Nat → List Char
  | b1 :: b2 :: b3 :: rest =>
    let n := b1 % 256 * 65536 + b2 % 256 * 256 + b3 % 256
    base64Char (n / 262144 % 64) :: base64Char (n / 4096 % 64) ::
      base64Char (n / 64 % 64) :: base64Char (n % 64) :: base64Groups rest
  | [b1, b2] =>
    let n := b1 % 256 * 65536 + b2 % 256 * 256
    [base64Char (n / 262144 % 64), base64Char (n / 4096 % 64),
     base64Char (n / 64 % 64), '=']
  | [b1] =>
    let n := b1 % 256 * 65536
    [base64Char (n / 262144 % 64), base64Char (n / 4096 % 64), '=', '=']
  | [] => []

/-- Model of the source's `bytesToBase64`. -/
def bytesToBase64 (bs : List Nat) : String :=
  String.mk (base64Groups bs)

/-! ### The cryptographic library surface used by hdWallet.ts

hdWallet.ts imports `sha512` and `hmac` from noble, `entropyToMnemonic` and
`mnemonicToSeedSync` from bip39, and `nacl.sign.keyPair.fromSeed` from
tweetnacl.  These are external deterministic libraries, not repository code,
so they are modelled as an explicit record of functions; the one library
contract the claims rely on (HMAC-SHA-512 digests are 64 bytes) is carried as
a proof field. -/

structure CryptoPrims where
  sha512 : List Nat → List Nat
  hmacSha512 : List Nat → List Nat → List Nat
  entropyToMnemonic : String → String
  mnemonicToSeedSync : String → List Nat
  ed25519PublicKey : List Nat → List Nat
  hmacSha512_length : ∀ k m, (hmacSha512 k m).length = 64

/-- Concrete (dummy) instantiation of the library record, used to evaluate
closed statements; the structural theorems hold for every instantiation. -/
def constPrims : CryptoPrims where
  sha512 := fun _ => List.replicate 64 0
  hmacSha512 := fun _ _ => List.replicate 64 0
  entropyToMnemonic := fun _ => "abandon"
  mnemonicToSeedSync := fun _ => List.replicate 64 0
  ed25519PublicKey := fun _ => List.replicate 32 0
  hmacSha512_length := fun _ _ => by simp

/-! ### hdWallet.ts -/

/-- Domain-separation label: `new TextEncoder().encode('necessitated/premises')`. -/
def DOMAIN_LABEL : List Nat := utf8Bytes "necessitated/premises"

/-- Model of `deriveHDSeed`: `new Uint8Array([account, address])` stores each
JavaScript number as a single byte, i.e. reduces it modulo 256; the digest is
`hmac(sha512, DOMAIN_LABEL, seed || indexBytes)` and `.slice(0, 32)` keeps its
first 32 bytes. -/
def deriveHDSeed (hmacSha512 : List Nat → List Nat → List Nat)
    (seed : List Nat) (account address : Nat) : List Nat :=
  let indexBytes := [account % 256, address % 256]
  let input := seed ++ indexBytes
  (hmacSha512 DOMAIN_LABEL input).take 32

/-- Result record of `generateHDKeypair` / `deriveNamespacePublicKey`. -/
structure KeyResult where
  path : String
  publicKey : String
deriving DecidableEq, Repr

/-- Model of `generateHDKeypair`: master seed from
`bip39.mnemonicToSeedSync`, child seed from `deriveHDSeed`, keypair from
`nacl.sign.keyPair.fromSeed` (only the public key is used), path string
interpolated from the two indices. -/
def generateHDKeypair (P : CryptoPrims) (mnemonic : String)
    (account address : Nat) : KeyResult :=
  let masterSeed := P.mnemonicToSeedSync mnemonic
  let derivedSeed := deriveHDSeed P.hmacSha512 masterSeed account address
  let pub := P.ed25519PublicKey derivedSeed
  { path := "m/" ++ toString account ++ "/" ++ toString address
    publicKey := bytesToBase64 pub }

/-- Model of `generateMnemonic`: SHA-512 over the UTF-8 bytes of the
passphrase, first 32 bytes as entropy, hex-encoded and handed to
`bip39.entropyToMnemonic`. -/
def generateMnemonic (P : CryptoPrims) (passphrase : String) : String :=
  let hash := P.sha512 (utf8Bytes passphrase)
  let entropy := hash.take 32
  P.entropyToMnemonic (bytesToHex entropy)

/-- Model of `deriveNamespacePublicKey` with `ACCOUNT_INDEX = 0`,
`ADDRESS_INDEX = 0`. -/
def deriveNamespacePublicKey (P : CryptoPrims) (ns : String) : KeyResult :=
  generateHDKeypair P (generateMnemonic P ns) 0 0

/-- Ambient run environment a browser invocation could in principle observe:
a randomness source, a clock reading, and mutable global string state.
hdWallet.ts consults none of these in its derivation path (the only global it
touches is the `Buffer` polyfill installation, which does not influence the
returned value), so the run-level derivation below ignores the environment —
that is the content of the determinism claim. -/
structure RunEnv where
  randomBytes : Nat → List Nat
  clockMillis : Nat
  mutableGlobals : List (String × String)

/-- One invocation of `deriveNamespacePublicKey` inside an ambient
environment. -/
def deriveNamespacePublicKeyRun (P : CryptoPrims) (_env : RunEnv)
    (ns : String) : KeyResult :=
  deriveNamespacePublicKey P ns

/-- Dummy environment for closed instantiations. -/
def emptyEnv : RunEnv where
  randomBytes := fun _ => []
  clockMillis := 0
  mutableGlobals := []

/-! ### App.tsx: data model -/

/-- Rational grid constants of App.tsx (`GRID_ASPECT_WIDTH = 9`,
`GRID_ASPECT_HEIGHT = 16`), used in the percentage formulas. -/
def GRID_ASPECT_WIDTH : ℚ := 9

/-- Height counterpart of `GRID_ASPECT_WIDTH`. -/
def GRID_ASPECT_HEIGHT : ℚ := 16

/-- Model of the `PointOfInterest` record.  `time`, `row` and `column` come
from `Number.parseInt` over regex digit runs, hence are naturals; the
percentage fields are exact rationals standing for the JS float expressions
(at the magnitudes the claims touch the float and rational values order the
same way against 0 and 100). -/
structure PointOfInterest where
  id : String
  time : Nat
  row : Nat
  column : Nat
  xPercent : ℚ
  yPercent : ℚ
  note : String
  isReadOnly : Bool
deriving DecidableEq, Repr

/-- A decoded graph node: a JavaScript object used as a string-to-string map,
modelled as its insertion-ordered list of properties. -/
abbrev GraphNode := List (String × String)

/-- Property read (`node.key`): the value stored at the first (unique)
occurrence of the key. -/
def getAttr (node : GraphNode) (k : String) : Option String :=
  (node.find? (fun p => p.1 == k)).map (fun p => p.2)

/-- Property write (`node[key] = value`): JavaScript objects keep the first
insertion position of a key and overwrite its value. -/
def setAttr (node : GraphNode) (k v : String) : GraphNode :=
  if node.any (fun p => p.1 == k) then
    node.map (fun p => if p.1 == k then (k, v) else p)
  else
    node ++ [(k, v)]

/-! ### App.tsx: character classes of the JS regexes -/

/-- JavaScript regex `\s` (also the character class trimmed by
`String.prototype.trim`). -/
def isJsSpace (c : Char) : Bool :=
  let n := c.toNat
  n == 32 || n == 9 || n == 10 || n == 11 || n == 12 || n == 13 ||
  n == 0xA0 || n == 0x1680 || (decide (0x2000 ≤ n) && decide (n ≤ 0x200A)) ||
  n == 0x2028 || n == 0x2029 || n == 0x202F || n == 0x205F ||
  n == 0x3000 || n == 0xFEFF

/-- JavaScript line terminators, the characters `.` does not match. -/
def isLineTerm (c : Char) : Bool :=
  let n := c.toNat
  n == 10 || n == 13 || n == 0x2028 || n == 0x2029

/-- JavaScript regex `\w`: ASCII letters, digits and underscore. -/
def isWordChar (c : Char) : Bool :=
  let n := c.toNat
  (decide (48 ≤ n) && decide (n ≤ 57)) || (decide (65 ≤ n) && decide (n ≤ 90)) ||
  (decide (97 ≤ n) && decide (n ≤ 122)) || n == 95

/-- Model of `String.prototype.trim`. -/
def jsTrim (s : String) : String :=
  String.mk (((s.data.dropWhile isJsSpace).reverse.dropWhile isJsSpace).reverse)

/-! ### App.tsx: `parseGraphNodes`

The decoder is `dotGraph.matchAll(/"[^"]+"\s*\[(.*?)\];/g)`.  For this
pattern the backtracking search is deterministic: a match starting at a given
position exists iff the position holds a `"`, followed by a non-empty run of
non-quote characters, a closing `"`, a run of whitespace, a `[`, and then —
`(.*?)` being lazy and `.` not crossing line terminators — the nearest `];`
with no line terminator before it.  `matchAll` yields the successive leftmost
matches, resuming after each match's end. -/

/-- Lazy body search of `(.*?)\];`: the shortest prefix (free of line
terminators) followed by the literal `];`; returns the body and the suffix
after the `;`. -/
def findBody : List Char → Option (List Char × List Char)
  | [] => none
  | ']' :: ';' :: rest => some ([], rest)
  | c :: rest =>
    if isLineTerm c then none
    else
      match findBody rest with
      | some (b, r) => some (c :: b, r)
      | none => none

/-- One mandatory literal character. -/
def expectChar (c : Char) : List Char → Option (List Char)
  | d :: rest => if d = c then some rest else none
  | [] => none

/-- The quoted identifier after its opening quote: `[^"]+"` — a non-empty
run of non-quote characters, then the closing quote; returns the suffix. -/
def takeQuoted (cs : List Char) : Option (List Char) :=
  let content := cs.takeWhile (fun c => c != '"')
  if content.isEmpty then none
  else expectChar '"' (cs.drop content.length)

/-- Attempt of the statement pattern at the current position; on success
returns the bracket body (the capture `match[1]`) and the suffix after the
match. -/
def matchStatementAt (cs : List Char) : Option (List Char × List Char) :=
  match expectChar '"' cs with
  | none => none
  | some r1 =>
    match takeQuoted r1 with
    | none => none
    | some r2 =>
      match expectChar '[' (r2.dropWhile isJsSpace) with
      | none => none
      | some r4 => findBody r4

theorem expectChar_length {c : Char} {cs r : List Char}
    (h : expectChar c cs = some r) : r.length < cs.length := by
  match cs with
  | [] => simp [expectChar] at h
  | d :: rest =>
    rw [expectChar] at h
    by_cases hd : d = c
    · rw [if_pos hd] at h
      simp at h
      simp [← h]
    · rw [if_neg hd] at h
      exact absurd h (by simp)

theorem findBody_length : ∀ (cs : List Char), ∀ b r, findBody cs = some (b, r) →
    r.length < cs.length := by
  intro cs
  induction cs with
  | nil => intro b r h; simp [findBody] at h
  | cons c rest ih =>
    intro b r h
    rw [findBody.eq_def] at h
    split at h
    · exact absurd h (by simp)
    · rename_i rest1 heq
      simp at h
      simp at heq
      simp [← h.2, heq.2]
      omega
    · split at h
      · exact absurd h (by simp)
      · split at h
        · rename_i x2 c2 rest2 hshape2 hscrut hlt2 xopt b0 r0 heq
          obtain ⟨hc2, hrest2⟩ := List.cons.inj hscrut
          subst hrest2
          simp at h
          have := ih b0 r0 heq
          simp [← h.2]
          omega
        · exact absurd h (by simp)

theorem takeQuoted_length {cs r : List Char} (h : takeQuoted cs = some r) :
    r.length < cs.length := by
  simp only [takeQuoted] at h
  split at h
  · exact absurd h (by simp)
  · have h1 := expectChar_length h
    have h2 : (cs.drop (cs.takeWhile (fun c => c != '"')).length).length ≤ cs.length := by
      simp [List.length_drop]
    omega

theorem matchStatementAt_length {cs b r : List Char}
    (h : matchStatementAt cs = some (b, r)) : r.length < cs.length := by
  rw [matchStatementAt] at h
  cases h1 : expectChar '"' cs with
  | none => rw [h1] at h; exact absurd h (by simp)
  | some r1 =>
    rw [h1] at h
    simp only at h
    cases h2 : takeQuoted r1 with
    | none => rw [h2] at h; exact absurd h (by simp)
    | some r2 =>
      rw [h2] at h
      simp only at h
      cases h3 : expectChar '[' (r2.dropWhile isJsSpace) with
      | none => rw [h3] at h; exact absurd h (by simp)
      | some r4 =>
        rw [h3] at h
        simp only at h
        have e1 := expectChar_length h1
        have e2 := takeQuoted_length h2
        have e3 := expectChar_length h3
        have e4 := findBody_length r4 b r h
        have e5 : (r2.dropWhile isJsSpace).length ≤ r2.length :=
          (List.dropWhile_sublist isJsSpace).length_le
        omega

/-- Model of `matchAll` for the statement regex: successive leftmost matches,
resuming after each match, advancing one position past a failed attempt;
returns the bracket bodies in source order.  The recursion is bounded by a
structural fuel so that the kernel can evaluate it; every step consumes at
least one character (`matchStatementAt_length`), so a fuel equal to the input
length is enough, and `scanStatementsGo_congr` below shows any sufficient
fuel gives the same result. -/
def scanStatementsGo (fuel : Nat) (cs : List Char) : List (List Char) :=
  match fuel with
  | 0 => []
  | fuel + 1 =>
    match cs with
    | [] => []
    | c :: rest =>
      match matchStatementAt (c :: rest) with
      | some (body, rest2) => body :: scanStatementsGo fuel rest2
      | none => scanStatementsGo fuel rest

/-- The statement scanner at its canonical fuel. -/
def scanStatements (cs : List Char) : List (List Char) :=
  scanStatementsGo cs.length cs

theorem scanStatementsGo_nil (fuel : Nat) : scanStatementsGo fuel [] = [] := by
  cases fuel <;> rfl

theorem scanStatementsGo_congr : ∀ f1 f2 : Nat, ∀ cs : List Char,
    cs.length ≤ f1 → cs.length ≤ f2 → scanStatementsGo f1 cs = scanStatementsGo f2 cs := by
  intro f1
  induction f1 with
  | zero =>
    intro f2 cs h1 h2
    have : cs = [] := List.length_eq_zero.mp (Nat.le_zero.mp h1)
    subst this
    rw [scanStatementsGo_nil, scanStatementsGo_nil]
  | succ f ih =>
    intro f2 cs h1 h2
    cases cs with
    | nil => rw [scanStatementsGo_nil, scanStatementsGo_nil]
    | cons c rest =>
      cases f2 with
      | zero => exact absurd h2 (by simp)
      | succ g =>
        rw [scanStatementsGo, scanStatementsGo]
        simp only [List.length_cons] at h1 h2
        cases hm : matchStatementAt (c :: rest) with
        | some pr =>
          obtain ⟨body, rest2⟩ := pr
          have hlen := matchStatementAt_length hm
          simp only [List.length_cons] at hlen
          show body :: scanStatementsGo f rest2 = body :: scanStatementsGo g rest2
          rw [ih g rest2 (by omega) (by omega)]
        | none =>
          show scanStatementsGo f rest = scanStatementsGo g rest
          rw [ih g rest (by omega) (by omega)]

/-! ### App.tsx: attribute extraction `(\w+)="([^"]*)"` -/

/-- Attempt of the attribute pattern at the current position: a non-empty
run of word characters, `="`, a (possibly empty) run of non-quote characters,
closing `"`.  For this pattern too the backtracking search is deterministic:
the runs are maximal. -/
def matchPairAt (cs : List Char) : Option ((List Char × List Char) × List Char) :=
  let key := cs.takeWhile isWordChar
  if key.isEmpty then none
  else
    match cs.drop key.length with
    | '=' :: '"' :: rest =>
      let val := rest.takeWhile (fun c => c != '"')
      match rest.drop val.length with
      | '"' :: rest2 => some ((key, val), rest2)
      | _ => none
    | _ => none

theorem matchPairAt_length {cs : List Char} {kv : List Char × List Char}
    {r : List Char} (h : matchPairAt cs = some (kv, r)) : r.length < cs.length := by
  simp only [matchPairAt] at h
  split at h
  · exact absurd h (by simp)
  · split at h
    · rename_i rest heq
      split at h
      · rename_i rest2 heq2
        simp only [Option.some.injEq, Prod.mk.injEq] at h
        have a1 := congrArg List.length heq
        have a2 := congrArg List.length heq2
        simp only [List.length_drop, List.length_cons] at a1 a2
        have h3 : r = rest2 := h.2.symm
        subst h3
        omega
      · exact absurd h (by simp)
    · exact absurd h (by simp)

/-- Model of `matchAll` for the attribute regex over one bracket body:
successive leftmost key/value matches, in order; fuel-bounded like
`scanStatementsGo`. -/
def scanPairsGo (fuel : Nat) (cs : List Char) : List (String × String) :=
  match fuel with
  | 0 => []
  | fuel + 1 =>
    match cs with
    | [] => []
    | c :: rest =>
      match matchPairAt (c :: rest) with
      | some ((k, v), rest2) => (String.mk k, String.mk v) :: scanPairsGo fuel rest2
      | none => scanPairsGo fuel rest

/-- The attribute scanner at its canonical fuel. -/
def scanPairs (cs : List Char) : List (String × String) :=
  scanPairsGo cs.length cs

theorem scanPairsGo_nil (fuel : Nat) : scanPairsGo fuel [] = [] := by
  cases fuel <;> rfl

theorem scanPairsGo_congr : ∀ f1 f2 : Nat, ∀ cs : List Char,
    cs.length ≤ f1 → cs.length ≤ f2 → scanPairsGo f1 cs = scanPairsGo f2 cs := by
  intro f1
  induction f1 with
  | zero =>
    intro f2 cs h1 h2
    have : cs = [] := List.length_eq_zero.mp (Nat.le_zero.mp h1)
    subst this
    rw [scanPairsGo_nil, scanPairsGo_nil]
  | succ f ih =>
    intro f2 cs h1 h2
    cases cs with
    | nil => rw [scanPairsGo_nil, scanPairsGo_nil]
    | cons c rest =>
      cases f2 with
      | zero => exact absurd h2 (by simp)
      | succ g =>
        rw [scanPairsGo, scanPairsGo]
        simp only [List.length_cons] at h1 h2
        cases hm : matchPairAt (c :: rest) with
        | some pr =>
          obtain ⟨kv, rest2⟩ := pr
          obtain ⟨k, v⟩ := kv
          have hlen := matchPairAt_length hm
          simp only [List.length_cons] at hlen
          show (String.mk k, String.mk v) :: scanPairsGo f rest2
              = (String.mk k, String.mk v) :: scanPairsGo g rest2
          rw [ih g rest2 (by omega) (by omega)]
        | none =>
          show scanPairsGo f rest = scanPairsGo g rest
          rw [ih g rest (by omega) (by omega)]

/-- Model of `parseGraphNodes`: one attribute object per matched statement,
built by successive property writes (`parsedAttributes[key] = value`). -/
def parseGraphNodes (dotGraph : String) : List GraphNode :=
  (scanStatements dotGraph.data).map
    (fun body => (scanPairs body).foldl (fun m kv => setAttr m kv.1 kv.2) [])

/-! ### App.tsx: `parseTagPointsForNamespace`

The parser builds `new RegExp('^' + escapeRegExp(namespace) + '/T\\+(\\d+)s/(\\d+)x(\\d+)/')`
and applies it to the node's trimmed `pubkey` attribute (note: the pubkey,
not the memo).  `escapeRegExp` escapes every regex metacharacter, so the
namespace is matched as a literal; each `\d+` is a maximal non-empty digit
run (greedy, and the following literal is a non-digit), so the match is
again deterministic and structural. -/

/-- Value of `Number.parseInt` on a non-empty decimal digit run. -/
def natOfDigits (ds : List Char) : Nat :=
  ds.foldl (fun n c => n * 10 + (c.toNat - 48)) 0

/-- Literal prefix match: strips `p` from the front of `s`. -/
def stripChars : List Char → List Char → Option (List Char)
  | [], s => some s
  | _ :: _, [] => none
  | p :: ps, c :: cs => if c = p then stripChars ps cs else none

/-- Maximal decimal digit run and the remainder. -/
def takeDigitRun (cs : List Char) : List Char × List Char :=
  (cs.takeWhile Char.isDigit, cs.dropWhile Char.isDigit)

/-- Anchored match of the explicit-coordinate pattern
`^<namespace>/T\+(\d+)s/(\d+)x(\d+)/` against a string; returns the three
captured integers (time, column, row) on success. -/
def matchTagPattern (ns s : String) : Option (Nat × Nat × Nat) :=
  match stripChars ns.data s.data with
  | none => none
  | some r1 =>
    match stripChars ['/', 'T', '+'] r1 with
    | none => none
    | some r2 =>
      let (tds, r3) := takeDigitRun r2
      if tds.isEmpty then none
      else
        match stripChars ['s', '/'] r3 with
        | none => none
        | some r4 =>
          let (cds, r5) := takeDigitRun r4
          if cds.isEmpty then none
          else
            match r5 with
            | 'x' :: r6 =>
              let (rds, r7) := takeDigitRun r6
              if rds.isEmpty then none
              else
                match r7 with
                | '/' :: _ => some (natOfDigits tds, natOfDigits cds, natOfDigits rds)
                | _ => none
            | _ => none

/-- Per-node step of the `reduce` in `parseTagPointsForNamespace`: trim the
`memo` and `pubkey` attributes, skip the node if either is missing or empty,
match the pattern against the (trimmed) pubkey, and on success build the
point.  The source's `Number.isNaN` guard is vacuous here: the captures are
non-empty digit runs, so `parseInt` never returns `NaN`. -/
def nodePoint (ns : String) (node : GraphNode) : Option PointOfInterest :=
  match (getAttr node "memo").map jsTrim, (getAttr node "pubkey").map jsTrim with
  | some memo, some pubkey =>
    if memo = "" ∨ pubkey = "" then none
    else
      match matchTagPattern ns pubkey with
      | some (time, column, row) =>
        some { id := pubkey
               time := time
               row := row
               column := column
               xPercent := ((column : ℚ) - 1/2) / GRID_ASPECT_WIDTH * 100
               yPercent := ((row : ℚ) - 1/2) / GRID_ASPECT_HEIGHT * 100
               note := memo
               isReadOnly := true }
      | none => none
  | _, _ => none

/-- Comparison used by the final `.sort((a, b) => a.time - b.time)`. -/
def pointTimeLE (a b : PointOfInterest) : Prop := a.time ≤ b.time

instance : DecidableRel pointTimeLE := fun a b => Nat.decLe a.time b.time

instance : IsTotal PointOfInterest pointTimeLE :=
  ⟨fun a b => Nat.le_total a.time b.time⟩

instance : IsTrans PointOfInterest pointTimeLE :=
  ⟨fun _ _ _ h1 h2 => Nat.le_trans h1 h2⟩

/-- Model of `parseTagPointsForNamespace`.  JavaScript's `Array.prototype.sort`
is stable, and `List.insertionSort` with this comparison is the stable
ascending-by-time sort, so both produce the same list.  `!namespace` is true
for an absent and for an empty namespace alike. -/
def parseTagPointsForNamespace (nodes : List GraphNode) (ns? : Option String) :
    List PointOfInterest :=
  match ns? with
  | none => []
  | some ns =>
    if ns = "" then []
    else
      List.insertionSort pointTimeLE
        (nodes.foldl (fun points node =>
          match nodePoint ns node with
          | some p => points ++ [p]
          | none => points) [])

/-- The point the parser emits for a node with memo `m` and pubkey
`ns/T+1s/2x3/q` under namespace `ns`; used to instantiate closed statements. -/
def samplePointC9 : PointOfInterest :=
  { id := "ns/T+1s/2x3/q", time := 1, row := 3, column := 2
    xPercent := ((2 : ℚ) - 1/2) / GRID_ASPECT_WIDTH * 100
    yPercent := ((3 : ℚ) - 1/2) / GRID_ASPECT_HEIGHT * 100
    note := "m", isReadOnly := true }

/-! ### Helper lemmas on the decoded-object model -/

theorem getAttr_cons (p : String × String) (rest : GraphNode) (k : String) :
    getAttr (p :: rest) k = if p.1 == k then some p.2 else getAttr rest k := by
  by_cases h : (p.1 == k) = true
  · rw [getAttr, @List.find?_cons_of_pos _ (fun q => q.1 == k) p rest h, if_pos h]
    rfl
  · rw [getAttr, @List.find?_cons_of_neg _ (fun q => q.1 == k) p rest h, if_neg h]
    rfl

theorem getAttr_map_replace (m : GraphNode) (k' v : String) (k : String) :
    getAttr (m.map (fun p => if p.1 == k' then (k', v) else p)) k =
      if k = k' then (if m.any (fun p => p.1 == k') then some v else none)
      else getAttr m k := by
  induction m with
  | nil => by_cases hk : k = k' <;> simp [getAttr, hk]
  | cons p rest ih =>
    rw [List.map_cons, getAttr_cons, getAttr_cons, List.any_cons]
    by_cases hp : (p.1 == k') = true
    · have hpk : p.1 = k' := beq_iff_eq.mp hp
      by_cases hk : k = k'
      · subst hk
        simp [hp, hpk]
      · have h1 : ((k', v).1 == k) = false := by
          simp only [beq_eq_false_iff_ne, ne_eq]
          exact fun hh => hk hh.symm
        have h2 : (p.1 == k) = false := by
          simp only [beq_eq_false_iff_ne, ne_eq]
          exact fun hh => hk (hh ▸ hpk)
        rw [if_pos hp]
        simp only [h1, h2, Bool.false_eq_true, if_false]
        rw [ih]
        simp [hk]
    · have hp0 : (p.1 == k') = false := by simpa using hp
      by_cases hk : k = k'
      · subst hk
        simp only [hp0, Bool.false_eq_true, if_false, Bool.false_or]
        rw [ih]
        simp
      · by_cases hf : (p.1 == k) = true
        · simp [hp0, hf, hk]
        · have hf0 : (p.1 == k) = false := by simpa using hf
          simp only [hp0, hf0, Bool.false_eq_true, if_false]
          rw [ih]
          simp [hk]

theorem getAttr_append_single (m : GraphNode) (k' v k : String)
    (hnone : m.any (fun p => p.1 == k') = false) :
    getAttr (m ++ [(k', v)]) k = if k = k' then some v else getAttr m k := by
  induction m with
  | nil =>
    rw [List.nil_append, getAttr_cons]
    by_cases hk : k = k'
    · rw [if_pos (by simp [beq_iff_eq, hk]), if_pos hk]
    · have h1 : ((k', v).1 == k) = false := by
        simp only [beq_eq_false_iff_ne, ne_eq]
        exact fun hh => hk hh.symm
      simp [h1, hk, getAttr]
  | cons p rest ih =>
    rw [List.any_cons, Bool.or_eq_false_iff] at hnone
    rw [List.cons_append, getAttr_cons, getAttr_cons]
    by_cases hfind : (p.1 == k) = true
    · have hpk : p.1 = k := beq_iff_eq.mp hfind
      by_cases hk : k = k'
      · exact absurd (beq_iff_eq.mpr (hk ▸ hpk)) (by simp [hnone.1])
      · simp [hfind, hk]
    · have hf0 : (p.1 == k) = false := by simpa using hfind
      simp only [hf0, Bool.false_eq_true, if_false]
      exact ih hnone.2

theorem getAttr_setAttr (m : GraphNode) (k' v k : String) :
    getAttr (setAttr m k' v) k = if k = k' then some v else getAttr m k := by
  rw [setAttr]
  by_cases hany : m.any (fun p => p.1 == k') = true
  · rw [if_pos hany, getAttr_map_replace, hany]
    by_cases hk : k = k' <;> simp [hk]
  · have hany0 : m.any (fun p => p.1 == k') = false := eq_false_of_ne_true hany
    rw [if_neg hany, getAttr_append_single m k' v k hany0]

theorem lookup_append (k : String) (l1 l2 : List (String × String)) :
    List.lookup k (l1 ++ l2) = (List.lookup k l1).or (List.lookup k l2) := by
  induction l1 with
  | nil => simp [List.lookup, Option.or]
  | cons p rest ih =>
    obtain ⟨pk, pv⟩ := p
    by_cases h : (k == pk) = true
    · simp [List.lookup, h, Option.or]
    · have h0 : (k == pk) = false := eq_false_of_ne_true h
      simp [List.lookup, h0, ih]

theorem getAttr_foldl_setAttr (pairs : List (String × String)) (m : GraphNode)
    (k : String) :
    getAttr (pairs.foldl (fun acc kv => setAttr acc kv.1 kv.2) m) k =
      (List.lookup k pairs.reverse).or (getAttr m k) := by
  induction pairs generalizing m with
  | nil => simp [List.lookup, Option.or]
  | cons p rest ih =>
    obtain ⟨pk, pv⟩ := p
    rw [List.foldl_cons, ih, List.reverse_cons, lookup_append]
    rw [getAttr_setAttr]
    by_cases h : k = pk
    · subst h
      cases List.lookup k rest.reverse <;> simp [List.lookup, Option.or]
    · have h0 : (k == pk) = false := by
        simp only [beq_eq_false_iff_ne, ne_eq]
        exact h
      cases List.lookup k rest.reverse <;> simp [List.lookup, h0, h, Option.or]

/-! ### Helper lemmas on the tag-point parser -/

theorem tagPoints_foldl (ns : String) (nodes : List GraphNode)
    (acc : List PointOfInterest) :
    nodes.foldl (fun points node =>
        match nodePoint ns node with
        | some p => points ++ [p]
        | none => points) acc
      = acc ++ nodes.filterMap (nodePoint ns) := by
  induction nodes generalizing acc with
  | nil => simp
  | cons nd rest ih =>
    rw [List.foldl_cons, List.filterMap_cons]
    cases h : nodePoint ns nd with
    | none =>
      simp only [h]
      rw [ih]
    | some p =>
      simp only [h]
      rw [ih]
      simp

theorem parseTag_eq_sort_filterMap (nodes : List GraphNode) (ns : String)
    (h : ns ≠ "") :
    parseTagPointsForNamespace nodes (some ns) =
      List.insertionSort pointTimeLE (nodes.filterMap (nodePoint ns)) := by
  simp only [parseTagPointsForNamespace]
  rw [if_neg h, tagPoints_foldl, List.nil_append]

theorem matchTagPattern_empty (ns : String) : matchTagPattern ns "" = none := by
  have hd0 : ("" : String).data = [] := rfl
  rw [matchTagPattern, hd0]
  cases hd : ns.data with
  | nil => simp [stripChars]
  | cons c cs => simp [stripChars]

theorem nodePoint_shape {ns : String} {node : GraphNode} {p : PointOfInterest}
    (h : nodePoint ns node = some p) :
    p.isReadOnly = true ∧
    p.xPercent = ((p.column : ℚ) - 1/2) / GRID_ASPECT_WIDTH * 100 ∧
    p.yPercent = ((p.row : ℚ) - 1/2) / GRID_ASPECT_HEIGHT * 100 := by
  rw [nodePoint] at h
  split at h
  · split at h
    · exact absurd h (by simp)
    · split at h
      · rename_i memo pubkey hmp t c r hmatch
        simp only [Option.some.injEq] at h
        subst h
        simp
      · exact absurd h (by simp)
  · exact absurd h (by simp)

theorem nodePoint_none_of_missing {node : GraphNode} (ns : String)
    (h : getAttr node "memo" = none ∨ getAttr node "pubkey" = none) :
    nodePoint ns node = none := by
  rcases h with h | h <;> rw [nodePoint, h]
  · rfl
  · cases hm : (getAttr node "memo").map jsTrim <;> rfl

theorem xPercent_range_iff (c : Nat) :
    (0 ≤ ((c : ℚ) - 1/2) / GRID_ASPECT_WIDTH * 100 ∧
      ((c : ℚ) - 1/2) / GRID_ASPECT_WIDTH * 100 ≤ 100)
      ↔ (1 ≤ c ∧ c ≤ 9) := by
  rw [GRID_ASPECT_WIDTH]
  constructor
  · rintro ⟨h1, h2⟩
    constructor
    · by_contra hc
      push_neg at hc
      interval_cases c
      norm_num at h1
    · by_contra hc
      push_neg at hc
      have h10 : (10 : ℚ) ≤ (c : ℚ) := by exact_mod_cast hc
      nlinarith
  · rintro ⟨h1, h2⟩
    have hc1 : (1 : ℚ) ≤ (c : ℚ) := by exact_mod_cast h1
    have hc2 : (c : ℚ) ≤ 9 := by exact_mod_cast h2
    constructor
    · nlinarith
    · nlinarith

theorem yPercent_range_iff (r : Nat) :
    (0 ≤ ((r : ℚ) - 1/2) / GRID_ASPECT_HEIGHT * 100 ∧
      ((r : ℚ) - 1/2) / GRID_ASPECT_HEIGHT * 100 ≤ 100)
      ↔ (1 ≤ r ∧ r ≤ 16) := by
  rw [GRID_ASPECT_HEIGHT]
  constructor
  · rintro ⟨h1, h2⟩
    constructor
    · by_contra hc
      push_neg at hc
      interval_cases r
      norm_num at h1
    · by_contra hc
      push_neg at hc
      have h17 : (17 : ℚ) ≤ (r : ℚ) := by exact_mod_cast hc
      nlinarith
  · rintro ⟨h1, h2⟩
    have hc1 : (1 : ℚ) ≤ (r : ℚ) := by exact_mod_cast h1
    have hc2 : (r : ℚ) ≤ 16 := by exact_mod_cast h2
    constructor
    · nlinarith
    · nlinarith

/-! ### Claim theorems -/

/-- C1: for every namespace string, `deriveNamespacePublicKey` returns path
`m/0/0` together with the base64 encoding of the signature public key
obtained by the exact pipeline: first 32 bytes of SHA-512 over the UTF-8
bytes of the namespace as entropy, encoded (hex-fed) into the standard
checksummed recovery phrase, expanded to the master seed, child seed at row
0 / column 0, keypair generated deterministically from that child seed. -/
theorem c1_namespace_identity_pipeline (P : CryptoPrims) (ns : String) :
    deriveNamespacePublicKey P ns =
      { path := "m/0/0"
        publicKey := bytesToBase64 (P.ed25519PublicKey
          ((P.hmacSha512 DOMAIN_LABEL
            (P.mnemonicToSeedSync
              (P.entropyToMnemonic
                (bytesToHex ((P.sha512 (utf8Bytes ns)).take 32))) ++ [0, 0])).take 32)) } :=
  rfl

/-- C2: for every master seed and every row and column in [0,255], the child
seed is exactly the first 32 bytes of the HMAC-SHA-512 digest keyed by the
fixed domain-separation label over `masterSeed || byte(row) || byte(col)`. -/
theorem c2_child_seed_hmac (hm : List Nat → List Nat → List Nat)
    (seed : List Nat) (row col : Nat) (hrow : row ≤ 255) (hcol : col ≤ 255) :
    deriveHDSeed hm seed row col
      = (hm DOMAIN_LABEL (seed ++ [row, col])).take 32 := by
  rw [deriveHDSeed]
  rw [Nat.mod_eq_of_lt (by omega), Nat.mod_eq_of_lt (by omega)]

/-- Witness for C2 at a concrete in-range input. -/
theorem c2_child_seed_hmac_witness :
    (3 : Nat) ≤ 255 ∧ (250 : Nat) ≤ 255 ∧
    deriveHDSeed constPrims.hmacSha512 [7] 3 250
      = (constPrims.hmacSha512 DOMAIN_LABEL ([7] ++ [3, 250])).take 32 :=
  ⟨by decide, by decide,
    c2_child_seed_hmac constPrims.hmacSha512 [7] 3 250 (by decide) (by decide)⟩

/-- C4 counterexample: the claim says an empty namespace fails with
`InvalidNamespace` and an out-of-range row fails with `CoordinateOutOfRange`,
in both cases returning no key.  The source performs no validation and has no
error path: the empty namespace yields a key (path `m/0/0`), and row 300 /
column 999 yield a 32-byte child seed. -/
theorem c4_typed_errors_counterexample :
    (deriveNamespacePublicKey constPrims "").path = "m/0/0" ∧
    (deriveHDSeed constPrims.hmacSha512 (List.replicate 64 0) 300 999).length = 32 := by
  constructor
  · rfl
  · decide

/-- C4 amended: derivation performs no input validation and defines no typed
errors: every namespace (including the empty/blank ones) yields a key with
path `m/0/0`, and every row/column (including out-of-range values) yields a
32-byte child seed, out-of-range values aliasing modulo 256. -/
theorem c4_no_validation_amended (P : CryptoPrims) :
    (∀ ns : String, (deriveNamespacePublicKey P ns).path = "m/0/0") ∧
    (∀ (seed : List Nat) (a b : Nat),
      (deriveHDSeed P.hmacSha512 seed a b).length = 32 ∧
      deriveHDSeed P.hmacSha512 seed a b
        = deriveHDSeed P.hmacSha512 seed (a % 256) (b % 256)) := by
  constructor
  · intro ns
    rfl
  · intro seed a b
    constructor
    · rw [deriveHDSeed]
      simp [P.hmacSha512_length]
    · have h1 : a % 256 % 256 = a % 256 := Nat.mod_mod_of_dvd a dvd_rfl
      have h2 : b % 256 % 256 = b % 256 := Nat.mod_mod_of_dvd b dvd_rfl
      rw [deriveHDSeed, deriveHDSeed, h1, h2]

/-- C7: namespace key derivation is deterministic — the result is a function
of the namespace (and of the fixed, deterministic crypto libraries) alone;
two invocations under arbitrary, different ambient environments (randomness
source, clock, mutable global state) return identical path and public-key
strings. -/
theorem c7_derivation_deterministic (P : CryptoPrims) (env1 env2 : RunEnv)
    (ns : String) :
    deriveNamespacePublicKeyRun P env1 ns = deriveNamespacePublicKeyRun P env2 ns :=
  rfl

/-- C10: `deriveHDSeed` reduces its account and address arguments modulo 256
(the `Uint8Array` single-byte coercion), so out-of-range coordinates alias to
in-range grid cells rather than being rejected. -/
theorem c10_byte_coercion_aliasing (hm : List Nat → List Nat → List Nat)
    (seed : List Nat) (a b : Nat) :
    deriveHDSeed hm seed a b = deriveHDSeed hm seed (a % 256) (b % 256) := by
  have h1 : a % 256 % 256 = a % 256 := Nat.mod_mod_of_dvd a dvd_rfl
  have h2 : b % 256 % 256 = b % 256 := Nat.mod_mod_of_dvd b dvd_rfl
  rw [deriveHDSeed, deriveHDSeed, h1, h2]

/-- C3 counterexample: the claim says a node whose MEMO is
`ns/T+42s/3x7/Hello` with an attached pubkey yields, under namespace `ns`,
exactly one point with time 42, column 3, row 7.  The source matches the
pattern against the node's PUBKEY attribute, not the memo, so this node
yields no point at all. -/
theorem c3_memo_convention_counterexample :
    parseTagPointsForNamespace
      [[("pubkey", "AAAA"), ("memo", "ns/T+42s/3x7/Hello")]] (some "ns") = [] := by
  decide

/-- C3 amended: for every non-empty namespace, the parser emits its points
from the nodes' PUBKEY attributes — a node carrying both attributes whose
trimmed pubkey starts with the literal namespace followed by
`/T+<int>s/<int>x<int>/` contributes exactly one read-only point whose time,
column and row are the three integers in that order and whose note is the
node's trimmed memo; a node whose pubkey does not match the pattern (for
example one with a different namespace prefix) contributes no point. -/
theorem c3_pubkey_convention_amended (ns : String) (hns : ns ≠ "") :
    (∀ nodes : List GraphNode,
      parseTagPointsForNamespace nodes (some ns)
        = List.insertionSort pointTimeLE (nodes.filterMap (nodePoint ns))) ∧
    (∀ (node : GraphNode) (memo pubkey : String) (t c r : Nat),
      (getAttr node "memo").map jsTrim = some memo → memo ≠ "" →
      (getAttr node "pubkey").map jsTrim = some pubkey →
      matchTagPattern ns pubkey = some (t, c, r) →
      nodePoint ns node = some
        { id := pubkey, time := t, row := r, column := c
          xPercent := ((c : ℚ) - 1/2) / GRID_ASPECT_WIDTH * 100
          yPercent := ((r : ℚ) - 1/2) / GRID_ASPECT_HEIGHT * 100
          note := memo, isReadOnly := true }) ∧
    (∀ (node : GraphNode) (pubkey : String),
      (getAttr node "pubkey").map jsTrim = some pubkey →
      matchTagPattern ns pubkey = none →
      nodePoint ns node = none) := by
  refine ⟨fun nodes => parseTag_eq_sort_filterMap nodes ns hns, ?_, ?_⟩
  · intro node memo pubkey t c r hmemo hmne hpub hmatch
    have hpne : pubkey ≠ "" := by
      intro he
      rw [he, matchTagPattern_empty] at hmatch
      exact absurd hmatch (by simp)
    rw [nodePoint, hmemo, hpub]
    simp only
    rw [if_neg (not_or.mpr ⟨hmne, hpne⟩), hmatch]
  · intro node pubkey hpub hmatch
    rw [nodePoint, hpub]
    cases hm : (getAttr node "memo").map jsTrim with
    | none => rfl
    | some memo =>
      simp only
      by_cases hz : memo = "" ∨ pubkey = ""
      · rw [if_pos hz]
      · rw [if_neg hz, hmatch]

/-- Witness for C3 at concrete inputs: a matching pubkey yields the point,
and a pubkey with a different namespace prefix yields none. -/
theorem c3_pubkey_convention_witness :
    parseTagPointsForNamespace [[("memo", "Hello"), ("pubkey", "ns/T+42s/3x7/k")]] (some "ns")
      = List.insertionSort pointTimeLE
          ([[("memo", "Hello"), ("pubkey", "ns/T+42s/3x7/k")]].filterMap (nodePoint "ns")) ∧
    nodePoint "ns" [("memo", "Hello"), ("pubkey", "ns/T+42s/3x7/k")]
      = some { id := "ns/T+42s/3x7/k", time := 42, row := 7, column := 3
               xPercent := ((3 : ℚ) - 1/2) / GRID_ASPECT_WIDTH * 100
               yPercent := ((7 : ℚ) - 1/2) / GRID_ASPECT_HEIGHT * 100
               note := "Hello", isReadOnly := true } ∧
    nodePoint "ns" [("memo", "Hello"), ("pubkey", "other/T+42s/3x7/k")] = none := by
  have h := c3_pubkey_convention_amended "ns" (by decide)
  refine ⟨h.1 _, h.2.1 _ "Hello" "ns/T+42s/3x7/k" 42 3 7 rfl (by decide) rfl (by decide), ?_⟩
  exact h.2.2 _ "other/T+42s/3x7/k" rfl (by decide)

/-- C5: the graph decoder returns one attribute map per statement matching
the quoted-identifier / bracket-body / terminating-semicolon shape, in source
order (first conjunct: the decode is exactly the per-statement map over the
scanned statement list, and is total — unmatched text contributes nothing and
never fails); within one statement every `key="value"` pair is recorded with
the later value winning on repeats (second conjunct: a property read returns
the last scanned value of the key). -/
theorem c5_decoder_contract (text : String) :
    parseGraphNodes text =
      (scanStatements text.data).map
        (fun body => (scanPairs body).foldl (fun m kv => setAttr m kv.1 kv.2) []) ∧
    ∀ body ∈ scanStatements text.data, ∀ k : String,
      getAttr ((scanPairs body).foldl (fun m kv => setAttr m kv.1 kv.2) []) k
        = List.lookup k (scanPairs body).reverse := by
  refine ⟨rfl, ?_⟩
  intro body _ k
  rw [getAttr_foldl_setAttr]
  cases List.lookup k (scanPairs body).reverse <;> simp [getAttr, Option.or]

/-- Witness for C5 on a concrete payload with a repeated key and interleaved
garbage: the duplicate key reads back its last value. -/
theorem c5_decoder_contract_witness :
    parseGraphNodes "\"n\" [a=\"1\" a=\"2\" b=\"3\"]; junk" =
      (scanStatements ("\"n\" [a=\"1\" a=\"2\" b=\"3\"]; junk").data).map
        (fun body => (scanPairs body).foldl (fun m kv => setAttr m kv.1 kv.2) []) ∧
    getAttr ((scanPairs ("a=\"1\" a=\"2\" b=\"3\"").data).foldl
        (fun m kv => setAttr m kv.1 kv.2) []) "a"
      = List.lookup "a" (scanPairs ("a=\"1\" a=\"2\" b=\"3\"").data).reverse ∧
    List.lookup "a" (scanPairs ("a=\"1\" a=\"2\" b=\"3\"").data).reverse = some "2" := by
  have h := c5_decoder_contract "\"n\" [a=\"1\" a=\"2\" b=\"3\"]; junk"
  refine ⟨h.1, h.2 ("a=\"1\" a=\"2\" b=\"3\"").data (by decide) "a", by decide⟩

/-- C6 counterexample: the claim says a node whose MEMO has non-numeric
coordinate components (memo `ns/T+abcs/3x7/x`) yields no point.  The source
reads the coordinates from the pubkey attribute, so such a node does yield a
point when its pubkey matches the pattern. -/
theorem c6_nonnumeric_memo_counterexample :
    (parseTagPointsForNamespace
      [[("memo", "ns/T+abcs/3x7/x"), ("pubkey", "ns/T+1s/2x3/q")]]
      (some "ns")).length = 1 := by
  decide

/-- C6 amended: tag-point parsing skips — without aborting the run or
affecting other nodes — every node that lacks a pubkey or a memo attribute
(first conjunct: removing such a node leaves the result unchanged, so the
remaining well-formed nodes are still parsed); the non-numeric-coordinate
guard applies to the PUBKEY attribute: a node whose pubkey is
`ns/T+abcs/3x7/x` yields no point whatever its memo (second conjunct). -/
theorem c6_malformed_skip_amended :
    (∀ ns : String, ns ≠ "" → ∀ (l1 l2 : List GraphNode) (node : GraphNode),
      getAttr node "memo" = none ∨ getAttr node "pubkey" = none →
      parseTagPointsForNamespace (l1 ++ node :: l2) (some ns)
        = parseTagPointsForNamespace (l1 ++ l2) (some ns)) ∧
    (∀ m : String,
      nodePoint "ns" [("memo", m), ("pubkey", "ns/T+abcs/3x7/x")] = none) := by
  constructor
  · intro ns hns l1 l2 node hmiss
    rw [parseTag_eq_sort_filterMap _ ns hns, parseTag_eq_sort_filterMap _ ns hns]
    rw [List.filterMap_append, List.filterMap_append, List.filterMap_cons]
    rw [nodePoint_none_of_missing ns hmiss]
  · intro m
    have h1 : (getAttr [("memo", m), ("pubkey", "ns/T+abcs/3x7/x")] "memo").map jsTrim
        = some (jsTrim m) := rfl
    have h2 : (getAttr [("memo", m), ("pubkey", "ns/T+abcs/3x7/x")] "pubkey").map jsTrim
        = some "ns/T+abcs/3x7/x" := rfl
    rw [nodePoint, h1, h2]
    simp only
    by_cases hm : jsTrim m = ""
    · rw [if_pos (Or.inl hm)]
    · rw [if_neg (not_or.mpr ⟨hm, by decide⟩),
        show matchTagPattern "ns" "ns/T+abcs/3x7/x" = none from by decide]

/-- Witness for C6 at concrete inputs: a node without a pubkey attribute is
skipped without affecting the surrounding nodes, and the non-numeric pubkey
example yields no point. -/
theorem c6_malformed_skip_witness :
    parseTagPointsForNamespace
        [[("memo", "Hello"), ("pubkey", "ns/T+42s/3x7/k")],
         [("memo", "orphan")]] (some "ns")
      = parseTagPointsForNamespace
        [[("memo", "Hello"), ("pubkey", "ns/T+42s/3x7/k")]] (some "ns") ∧
    nodePoint "ns" [("memo", "zzz"), ("pubkey", "ns/T+abcs/3x7/x")] = none := by
  have h := c6_malformed_skip_amended
  refine ⟨?_, h.2 "zzz"⟩
  have := h.1 "ns" (by decide)
      [[("memo", "Hello"), ("pubkey", "ns/T+42s/3x7/k")]] [] [("memo", "orphan")]
      (Or.inr (by decide))
  simpa using this

/-- C8: for every node list and namespace argument, the returned point list
is sorted by time in ascending order. -/
theorem c8_points_sorted_by_time (nodes : List GraphNode) (ns? : Option String) :
    List.Pairwise (fun a b => a.time ≤ b.time)
      (parseTagPointsForNamespace nodes ns?) := by
  cases ns? with
  | none => simp [parseTagPointsForNamespace]
  | some ns =>
    by_cases h : ns = ""
    · simp [parseTagPointsForNamespace, h]
    · rw [parseTag_eq_sort_filterMap nodes ns h]
      exact List.sorted_insertionSort pointTimeLE (nodes.filterMap (nodePoint ns))

/-- C9 counterexample: the claim says every emitted point has `xPercent` and
`yPercent` in [0,100].  A tag at column 0 (pubkey `ns/T+5s/0x3/q`) is
emitted with `xPercent = (0 - 1/2) / 9 * 100 < 0`. -/
theorem c9_percent_range_counterexample :
    (parseTagPointsForNamespace [[("memo", "m"), ("pubkey", "ns/T+5s/0x3/q")]]
        (some "ns")).map (fun p => p.xPercent)
      = [((0 : ℚ) - 1/2) / GRID_ASPECT_WIDTH * 100] ∧
    ((0 : ℚ) - 1/2) / GRID_ASPECT_WIDTH * 100 < 0 :=
  ⟨rfl, by norm_num [GRID_ASPECT_WIDTH]⟩

/-- C9 amended: every emitted point carries the read-only flag, and its
percentages are the exact affine images of its coordinates —
`xPercent = (column - 1/2) / 9 * 100` lies in [0,100] exactly when the
decoded column is between 1 and 9, and
`yPercent = (row - 1/2) / 16 * 100` lies in [0,100] exactly when the decoded
row is between 1 and 16; coordinates outside those ranges (which the parser
does not reject) put the percentages outside [0,100]. -/
theorem c9_readonly_percent_amended (nodes : List GraphNode) (ns? : Option String)
    (p : PointOfInterest) (hp : p ∈ parseTagPointsForNamespace nodes ns?) :
    p.isReadOnly = true ∧
    ((0 ≤ p.xPercent ∧ p.xPercent ≤ 100) ↔ (1 ≤ p.column ∧ p.column ≤ 9)) ∧
    ((0 ≤ p.yPercent ∧ p.yPercent ≤ 100) ↔ (1 ≤ p.row ∧ p.row ≤ 16)) := by
  have hshape : p.isReadOnly = true ∧
      p.xPercent = ((p.column : ℚ) - 1/2) / GRID_ASPECT_WIDTH * 100 ∧
      p.yPercent = ((p.row : ℚ) - 1/2) / GRID_ASPECT_HEIGHT * 100 := by
    cases ns? with
    | none => simp [parseTagPointsForNamespace] at hp
    | some ns =>
      by_cases h : ns = ""
      · simp [parseTagPointsForNamespace, h] at hp
      · rw [parseTag_eq_sort_filterMap nodes ns h] at hp
        rw [List.mem_insertionSort] at hp
        obtain ⟨node, _, hnode⟩ := List.mem_filterMap.mp hp
        exact nodePoint_shape hnode
  refine ⟨hshape.1, ?_, ?_⟩
  · rw [hshape.2.1]
    exact xPercent_range_iff p.column
  · rw [hshape.2.2]
    exact yPercent_range_iff p.row

/-- Witness for C9 at the concrete point emitted for pubkey
`ns/T+1s/2x3/q`. -/
theorem c9_readonly_percent_witness :
    samplePointC9.isReadOnly = true ∧
    ((0 ≤ samplePointC9.xPercent ∧ samplePointC9.xPercent ≤ 100) ↔
      (1 ≤ samplePointC9.column ∧ samplePointC9.column ≤ 9)) ∧
    ((0 ≤ samplePointC9.yPercent ∧ samplePointC9.yPercent ≤ 100) ↔
      (1 ≤ samplePointC9.row ∧ samplePointC9.row ≤ 16)) := by
  apply c9_readonly_percent_amended
      [[("memo", "m"), ("pubkey", "ns/T+1s/2x3/q")]] (some "ns")
  have h : parseTagPointsForNamespace
      [[("memo", "m"), ("pubkey", "ns/T+1s/2x3/q")]] (some "ns")
      = [samplePointC9] := rfl
  rw [h]
  exact List.mem_singleton.mpr rfl
